import Mathlib

/-!
# Verification of the `kaggletools` feature-engineering helpers

A shallow embedding, in Lean 4, of the parts of the `kaggletools` Python
repository that the specification talks about:

* `kaggletools/titanic.py` — `extract_title`, `TicketCounter.fill_ticket_rates`,
  `CabinCounter.__init__`, `FamilyPredictor.__init__` and
  `FamilyPredictor.fill_family_rates`;
* `kaggletools/select_features.py` — `select_features_ascending`,
  `select_features_descending`, `squash_rare` and
  `SumDiffTransformer.transform`.

A pandas data frame is modelled as a `List` of rows (the list position plays
the role of the row index), a column value that may be `NaN` as an `Option`,
and exact rational arithmetic (`ℚ`) replaces Python floats — all the division
the code performs is on small integer counts, so the float results are exact
and the rational model is faithful.  Python code that raises is modelled with
`Except String`; a Python `NameError` on an unbound global (`pd`, `X_old`)
is modelled by an `Except`-valued lookup that fails, derived from the list of
modules the Python file imports.
-/

set_option autoImplicit false

namespace Kaggletools

/-! ## Data model for `TicketCounter` (`kaggletools/titanic.py`)

A row of the Titanic table as `TicketCounter.fill_ticket_rates` reads it:
`PassengerId` (integer), `Ticket` (string, never `NaN`), `Pclass` (integer)
and `Survived` (0, 1 or `NaN`, modelled as `Option Bool` with
`some true` = 1, `some false` = 0 and `none` = `NaN`). -/

structure Passenger where
  passengerId : Int
  ticket : String
  pclass : Int
  survived : Option Bool
deriving DecidableEq, Repr

/-- A row after `fill_ticket_rates`: the original columns plus the two columns
the method adds, `TicketCount` and `TicketRate` (`none` = the rate was left
`NaN`, which the non-simplified mode can do when a whole `Pclass` group has
no known `Survived` value). -/
structure PassengerOut where
  passengerId : Int
  ticket : String
  pclass : Int
  survived : Option Bool
  ticketCount : Nat
  ticketRate : Option ℚ
deriving DecidableEq, Repr

/-- The original columns of an output row. -/
def PassengerOut.toPassenger (r : PassengerOut) : Passenger :=
  ⟨r.passengerId, r.ticket, r.pclass, r.survived⟩

/-- `counts[t]` of `fill_ticket_rates`: the number of rows whose `Ticket`
equals `t`. -/
def ticketCountOf (data : List Passenger) (t : String) : Nat :=
  data.countP (fun r => r.ticket == t)

/-- `surv[t]` of `fill_ticket_rates`: the number of rows with `Ticket == t`
and `Survived == 1`. -/
def survOf (data : List Passenger) (t : String) : Nat :=
  data.countP (fun r => r.ticket == t && r.survived == some true)

/-- `died[t]` of `fill_ticket_rates`: the number of rows with `Ticket == t`
and `Survived == 0`. -/
def diedOf (data : List Passenger) (t : String) : Nat :=
  data.countP (fun r => r.ticket == t && r.survived == some false)

/-- The known `Survived` values of the *other* rows sharing a ticket:
`self.data.loc[(self.data.Ticket == ticket) & (self.data.PassengerId != pid)].Survived`
with the `NaN` entries dropped (pandas `min`/`max` skip `NaN`). -/
def otherSurvived (data : List Passenger) (t : String) (pid : Int) : List Bool :=
  (data.filter (fun r => r.ticket == t && r.passengerId != pid)).filterMap
    (fun r => r.survived)

/-- The simplified-mode rate of one row before the final `fillna(0.5)`:
`ks` is the list of known `Survived` values of the other same-ticket rows.
With `fill_if_not_any_survived = True` the code tests `max() == 1.0` then
`min() == 0.0`; with it `False` it tests `min() == 1.0` then `max() == 0.0`.
A pandas `min`/`max` over no known value is `NaN` and both comparisons fail,
leaving the rate `NaN` (`none`). -/
def simpleRate (fill_if_not_any_survived : Bool) (ks : List Bool) : Option ℚ :=
  if fill_if_not_any_survived then
    if ks.any (fun b => b) then some 1
    else if ks.any (fun b => !b) then some 0
    else none
  else
    if !ks.isEmpty && ks.all (fun b => b) then some 1
    else if !ks.isEmpty && ks.all (fun b => !b) then some 0
    else none

/-- The non-simplified rate of one row before the `Pclass` fallback:
`s = surv[ticket]` and `d = died[ticket]` minus the row's own contribution,
then `s / (s + d)` when `s + d` is nonzero, `NaN` otherwise. -/
def rawTicketRate (data : List Passenger) (r : Passenger) : Option ℚ :=
  let s : Nat := survOf data r.ticket - (if r.survived == some true then 1 else 0)
  let d : Nat := diedOf data r.ticket - (if r.survived == some false then 1 else 0)
  if s + d ≠ 0 then some ((s : ℚ) / ((s : ℚ) + (d : ℚ))) else none

/-- `self.data.loc[(self.data.Pclass == c), "Survived"].mean()`: the mean of
the known `Survived` values of the rows of class `c`; pandas skips `NaN`s and
returns `NaN` (`none`) when there is no known value. -/
def pclassSurvivedMean (data : List Passenger) (c : Int) : Option ℚ :=
  let ks := (data.filter (fun r => r.pclass == c)).filterMap (fun r => r.survived)
  if ks.isEmpty then none
  else some ((ks.count true : ℚ) / (ks.length : ℚ))

/-- One output row of `TicketCounter.fill_ticket_rates`: the per-row rate of
the selected mode, then the fallback — `fillna(0.5)` in simplified mode, the
per-`Pclass` mean of `Survived` otherwise. -/
def ticketRow (simplified fill_if_not_any_survived : Bool) (data : List Passenger)
    (r : Passenger) : PassengerOut :=
  let base : Option ℚ :=
    if simplified then
      simpleRate fill_if_not_any_survived (otherSurvived data r.ticket r.passengerId)
    else rawTicketRate data r
  let rate : Option ℚ :=
    match base with
    | some q => some q
    | none => if simplified then some (1/2) else pclassSurvivedMean data r.pclass
  { passengerId := r.passengerId, ticket := r.ticket, pclass := r.pclass,
    survived := r.survived, ticketCount := ticketCountOf data r.ticket,
    ticketRate := rate }

/-- `TicketCounter.fill_ticket_rates`: every row receives its `TicketCount`
and `TicketRate`; no other column and no row is touched. -/
def fillTicketRates (simplified fill_if_not_any_survived : Bool)
    (data : List Passenger) : List PassengerOut :=
  data.map (ticketRow simplified fill_if_not_any_survived data)

/-- The `TicketRate` that `fill_ticket_rates` assigns to the row at position
`i` (`none` when `i` is out of range). -/
def rateAt (simplified fill_if_not_any_survived : Bool) (data : List Passenger)
    (i : Nat) : Option (Option ℚ) :=
  ((fillTicketRates simplified fill_if_not_any_survived data)[i]?).map
    (fun r => r.ticketRate)

/-- The leave-one-out survivor count for position `i`: rows other than `i`
with ticket `t` and `Survived == 1`. -/
def loSurv (data : List Passenger) (i : Nat) (t : String) : Nat :=
  (data.eraseIdx i).countP (fun x => x.ticket == t && x.survived == some true)

/-- The leave-one-out death count for position `i`: rows other than `i`
with ticket `t` and `Survived == 0`. -/
def loDied (data : List Passenger) (i : Nat) (t : String) : Nat :=
  (data.eraseIdx i).countP (fun x => x.ticket == t && x.survived == some false)

/-- Replace the `Survived` value of a row, keeping every other column. -/
def withSurvived (r : Passenger) (v : Option Bool) : Passenger :=
  { r with survived := v }

/-! ### Counting helpers

Positional lemmas relating `countP`/`filter` on a list with one updated entry
(`List.set`) to the list with that entry removed (`List.eraseIdx`).  These are
the combinatorial core behind the leave-one-out facts: the code's
`surv[t] - own` / `died[t] - own` adjustments are exactly counts over the
table without the row itself. -/

theorem countP_set_eq_countP_eraseIdx {α : Type} (p : α → Bool) :
    ∀ (l : List α) (i : Nat), i < l.length → ∀ (a : α),
      (l.set i a).countP p = (l.eraseIdx i).countP p + (if p a then 1 else 0)
  | [], i, hi, _ => absurd hi (by simp)
  | x :: t, 0, _, a => by
    simp [List.countP_cons, Nat.add_comm]
  | x :: t, i + 1, hi, a => by
    have ih := countP_set_eq_countP_eraseIdx p t i (by simpa using hi) a
    simp only [List.set, List.eraseIdx, List.countP_cons, ih]
    omega

theorem countP_eq_countP_eraseIdx {α : Type} (p : α → Bool) :
    ∀ (l : List α) (i : Nat) (hi : i < l.length),
      l.countP p = (l.eraseIdx i).countP p + (if p (l.get ⟨i, hi⟩) then 1 else 0)
  | [], i, hi => absurd hi (by simp)
  | x :: t, 0, _ => by
    simp [List.countP_cons, Nat.add_comm]
  | x :: t, i + 1, hi => by
    have ih := countP_eq_countP_eraseIdx p t i (by simpa using hi)
    simp only [List.eraseIdx, List.countP_cons, List.get]
    omega

theorem get_mem_eraseIdx {α : Type} :
    ∀ (l : List α) (i j : Nat) (hj : j < l.length), j ≠ i →
      l.get ⟨j, hj⟩ ∈ l.eraseIdx i
  | [], _, j, hj, _ => absurd hj (by simp)
  | x :: t, 0, 0, _, hne => absurd rfl hne
  | x :: t, 0, j + 1, hj, _ => by
    simp only [List.eraseIdx_zero, List.tail_cons]
    exact List.get_mem t j (by simpa using hj)
  | x :: t, i + 1, 0, _, _ => by simp [List.eraseIdx]
  | x :: t, i + 1, j + 1, hj, hne => by
    have h := get_mem_eraseIdx t i j (by simpa using hj) (by omega)
    simp only [List.eraseIdx, List.get, List.mem_cons]
    exact Or.inr (by simpa using h)

theorem exists_get_of_mem_eraseIdx {α : Type} :
    ∀ (l : List α) (i : Nat) (x : α), x ∈ l.eraseIdx i →
      ∃ j, ∃ hj : j < l.length, j ≠ i ∧ l.get ⟨j, hj⟩ = x
  | [], i, x, hx => absurd hx (by simp)
  | a :: t, 0, x, hx => by
    simp only [List.eraseIdx] at hx
    obtain ⟨⟨j, hj⟩, rfl⟩ := List.mem_iff_get.mp hx
    exact ⟨j + 1, by simpa using hj, by omega, rfl⟩
  | a :: t, i + 1, x, hx => by
    simp only [List.eraseIdx, List.mem_cons] at hx
    rcases hx with rfl | hx
    · exact ⟨0, by simp, by omega, rfl⟩
    · obtain ⟨j, hj, hne, rfl⟩ := exists_get_of_mem_eraseIdx t i x hx
      exact ⟨j + 1, by simpa using hj, by omega, rfl⟩

theorem filter_set_congr {α : Type} (p : α → Bool) :
    ∀ (l : List α) (i : Nat) (a b : α), p a = false → p b = false →
      (l.set i a).filter p = (l.set i b).filter p
  | [], _, _, _, _, _ => rfl
  | x :: t, 0, a, b, ha, hb => by
    simp [List.filter_cons, ha, hb]
  | x :: t, i + 1, a, b, ha, hb => by
    have ih := filter_set_congr p t i a b ha hb
    simp [List.filter_cons, ih]

theorem set_get_self {α : Type} :
    ∀ (l : List α) (i : Nat) (hi : i < l.length), l.set i (l.get ⟨i, hi⟩) = l
  | [], i, hi => absurd hi (by simp)
  | _ :: _, 0, _ => rfl
  | x :: t, i + 1, hi => by
    simp only [List.set, List.get]
    rw [set_get_self t i (by simpa using hi)]

/-! ### Reductions of `fill_ticket_rates` at one row -/

theorem rateAt_eq (s f : Bool) (data : List Passenger) (i : Nat)
    (hi : i < data.length) :
    rateAt s f data i
      = some ((ticketRow s f data (data.get ⟨i, hi⟩)).ticketRate) := by
  unfold rateAt fillTicketRates
  simp [List.getElem?_eq_getElem hi, List.get_eq_getElem]

/-- After overwriting row `i`'s `Survived`, the non-simplified raw rate of
that row is the leave-one-out fraction `loSurv / (loSurv + loDied)` — the
self-adjustment of `surv[t]`/`died[t]` cancels against the new value's own
contribution to the counts, whatever that value is. -/
theorem rawTicketRate_set (data : List Passenger) (i : Nat)
    (hi : i < data.length) (v : Option Bool) :
    rawTicketRate (data.set i (withSurvived (data.get ⟨i, hi⟩) v))
        (withSurvived (data.get ⟨i, hi⟩) v)
      = (if loSurv data i (data.get ⟨i, hi⟩).ticket
            + loDied data i (data.get ⟨i, hi⟩).ticket ≠ 0 then
          some ((loSurv data i (data.get ⟨i, hi⟩).ticket : ℚ) /
            ((loSurv data i (data.get ⟨i, hi⟩).ticket : ℚ)
              + (loDied data i (data.get ⟨i, hi⟩).ticket : ℚ)))
        else none) := by
  unfold rawTicketRate survOf diedOf loSurv loDied
  rw [countP_set_eq_countP_eraseIdx _ data i hi,
    countP_set_eq_countP_eraseIdx _ data i hi]
  simp [withSurvived, Nat.add_sub_cancel]

/-- The unmodified variant of `rawTicketRate_set`: on the original table the
raw rate of row `i` is the same leave-one-out fraction. -/
theorem rawTicketRate_self (data : List Passenger) (i : Nat)
    (hi : i < data.length) :
    rawTicketRate data (data.get ⟨i, hi⟩)
      = (if loSurv data i (data.get ⟨i, hi⟩).ticket
            + loDied data i (data.get ⟨i, hi⟩).ticket ≠ 0 then
          some ((loSurv data i (data.get ⟨i, hi⟩).ticket : ℚ) /
            ((loSurv data i (data.get ⟨i, hi⟩).ticket : ℚ)
              + (loDied data i (data.get ⟨i, hi⟩).ticket : ℚ)))
        else none) := by
  unfold rawTicketRate survOf diedOf loSurv loDied
  rw [countP_eq_countP_eraseIdx _ data i hi,
    countP_eq_countP_eraseIdx _ data i hi]
  simp [Nat.add_sub_cancel]

/-- Overwriting row `i`'s `Survived` does not change the other same-ticket
rows' known `Survived` values seen by the simplified mode: the row itself is
excluded by its `PassengerId`. -/
theorem otherSurvived_set (data : List Passenger) (i : Nat)
    (hi : i < data.length) (v : Option Bool) :
    otherSurvived (data.set i (withSurvived (data.get ⟨i, hi⟩) v))
        (data.get ⟨i, hi⟩).ticket (data.get ⟨i, hi⟩).passengerId
      = otherSurvived data (data.get ⟨i, hi⟩).ticket
          (data.get ⟨i, hi⟩).passengerId := by
  unfold otherSurvived
  have h := filter_set_congr
    (fun r => r.ticket == (data.get ⟨i, hi⟩).ticket
      && r.passengerId != (data.get ⟨i, hi⟩).passengerId)
    data i (withSurvived (data.get ⟨i, hi⟩) v) (data.get ⟨i, hi⟩)
    (by simp [withSurvived]) (by simp)
  rw [h, set_get_self]

/-! ### C1: rate filling is leave-one-out -/

/-- **C1.** For a table with the required columns (unique `PassengerId`,
non-null `Ticket`, `Survived` ∈ {0, 1, NaN}, `Pclass`), and for a row that
has at least one *other* row with the same `Ticket` and a known `Survived`
value, the `TicketRate` that `TicketCounter.fill_ticket_rates` assigns to
that row is the same for any value of the row's own `Survived` column (0, 1
or NaN), in every mode: a row's own outcome never contributes to its own
computed rate. -/
theorem fill_ticket_rates_leave_one_out
    (simplified fill_if_not_any_survived : Bool) (data : List Passenger)
    (i : Nat) (hi : i < data.length) (v₁ v₂ : Option Bool)
    (_hpid : data.Pairwise (fun a b => a.passengerId ≠ b.passengerId))
    (hother : ∃ j, ∃ hj : j < data.length, j ≠ i ∧
        (data.get ⟨j, hj⟩).ticket = (data.get ⟨i, hi⟩).ticket ∧
        (data.get ⟨j, hj⟩).survived ≠ none) :
    rateAt simplified fill_if_not_any_survived
        (data.set i (withSurvived (data.get ⟨i, hi⟩) v₁)) i
      = rateAt simplified fill_if_not_any_survived
        (data.set i (withSurvived (data.get ⟨i, hi⟩) v₂)) i := by
  have hget : ∀ v : Option Bool, ∀ h,
      (data.set i (withSurvived (data.get ⟨i, hi⟩) v)).get ⟨i, h⟩
        = withSurvived (data.get ⟨i, hi⟩) v := by
    intro v h
    simp [List.get_eq_getElem]
  cases simplified with
  | true =>
    have key : ∀ v : Option Bool,
        rateAt true fill_if_not_any_survived
            (data.set i (withSurvived (data.get ⟨i, hi⟩) v)) i
          = some (some ((simpleRate fill_if_not_any_survived
              (otherSurvived data (data.get ⟨i, hi⟩).ticket
                (data.get ⟨i, hi⟩).passengerId)).getD (1/2))) := by
      intro v
      have hlen : i < (data.set i (withSurvived (data.get ⟨i, hi⟩) v)).length := by
        simpa using hi
      rw [rateAt_eq _ _ _ i hlen, hget v hlen]
      simp only [ticketRow, withSurvived]
      rw [show ({ data.get ⟨i, hi⟩ with survived := v } : Passenger).ticket
            = (data.get ⟨i, hi⟩).ticket from rfl,
        show ({ data.get ⟨i, hi⟩ with survived := v } : Passenger).passengerId
            = (data.get ⟨i, hi⟩).passengerId from rfl]
      rw [show data.set i { data.get ⟨i, hi⟩ with survived := v }
            = data.set i (withSurvived (data.get ⟨i, hi⟩) v) from rfl]
      rw [otherSurvived_set data i hi v]
      cases simpleRate fill_if_not_any_survived
          (otherSurvived data (data.get ⟨i, hi⟩).ticket
            (data.get ⟨i, hi⟩).passengerId) <;> simp
    rw [key v₁, key v₂]
  | false =>
    have hpos : loSurv data i (data.get ⟨i, hi⟩).ticket
        + loDied data i (data.get ⟨i, hi⟩).ticket ≠ 0 := by
      obtain ⟨j, hj, hji, htick, hsurv⟩ := hother
      rcases h : (data.get ⟨j, hj⟩).survived with _ | b
      · exact absurd h hsurv
      have hmem := get_mem_eraseIdx data i j hj hji
      cases b
      · have hd : 0 < loDied data i (data.get ⟨i, hi⟩).ticket := by
          unfold loDied
          rw [List.countP_pos_iff]
          refine ⟨_, hmem, ?_⟩
          simp only [List.get_eq_getElem] at htick h
          simp [htick, h]
        omega
      · have hs : 0 < loSurv data i (data.get ⟨i, hi⟩).ticket := by
          unfold loSurv
          rw [List.countP_pos_iff]
          refine ⟨_, hmem, ?_⟩
          simp only [List.get_eq_getElem] at htick h
          simp [htick, h]
        omega
    have key : ∀ v : Option Bool,
        rateAt false fill_if_not_any_survived
            (data.set i (withSurvived (data.get ⟨i, hi⟩) v)) i
          = some (some ((loSurv data i (data.get ⟨i, hi⟩).ticket : ℚ) /
              ((loSurv data i (data.get ⟨i, hi⟩).ticket : ℚ)
                + (loDied data i (data.get ⟨i, hi⟩).ticket : ℚ)))) := by
      intro v
      have hlen : i < (data.set i (withSurvived (data.get ⟨i, hi⟩) v)).length := by
        simpa using hi
      rw [rateAt_eq _ _ _ i hlen, hget v hlen]
      simp only [ticketRow]
      rw [rawTicketRate_set data i hi v, if_pos hpos]
      simp
    rw [key v₁, key v₂]

/-- A two-row table whose rows share ticket "A", used as concrete input for
the leave-one-out witness. -/
def ticketDemo : List Passenger :=
  [⟨1, "A", 1, some true⟩, ⟨2, "A", 1, some false⟩]

/-- Witness for C1: on a concrete two-row table, overwriting row 0's
`Survived` with 1 or with NaN yields the same `TicketRate` for row 0. -/
theorem fill_ticket_rates_leave_one_out_witness :
    rateAt false false
        (ticketDemo.set 0 (withSurvived (ticketDemo.get ⟨0, by decide⟩) (some true))) 0
      = rateAt false false
        (ticketDemo.set 0 (withSurvived (ticketDemo.get ⟨0, by decide⟩) none)) 0 :=
  fill_ticket_rates_leave_one_out false false ticketDemo 0 (by decide)
    (some true) none (by decide) ⟨1, by decide, by decide, by decide, by decide⟩

/-! ### C4: fallback when no other same-ticket row has a known outcome -/

theorem simpleRate_nil (f : Bool) : simpleRate f [] = none := by
  cases f <;> rfl

/-- **C4.** If no *other* row shares row `i`'s `Ticket` with a known
`Survived` value, the fallback applies: `TicketRate` is the constant `0.5`
in simplified mode, and the mean `Survived` of the rows sharing row `i`'s
`Pclass` otherwise. -/
theorem fill_ticket_rates_fallback
    (simplified fill_if_not_any_survived : Bool) (data : List Passenger)
    (i : Nat) (hi : i < data.length)
    (h : ∀ j, ∀ hj : j < data.length, j ≠ i →
        (data.get ⟨j, hj⟩).ticket = (data.get ⟨i, hi⟩).ticket →
        (data.get ⟨j, hj⟩).survived = none) :
    rateAt simplified fill_if_not_any_survived data i
      = some (if simplified then some (1/2)
          else pclassSurvivedMean data (data.get ⟨i, hi⟩).pclass) := by
  rw [rateAt_eq _ _ _ i hi]
  cases simplified with
  | false =>
    have hz : loSurv data i (data.get ⟨i, hi⟩).ticket = 0 ∧
        loDied data i (data.get ⟨i, hi⟩).ticket = 0 := by
      constructor <;>
      · first
          | unfold loSurv
          | unfold loDied
        rw [List.countP_eq_zero]
        intro a ha hp
        obtain ⟨j, hj, hne, rfl⟩ := exists_get_of_mem_eraseIdx data i a ha
        simp only [Bool.and_eq_true, beq_iff_eq] at hp
        have := h j hj hne hp.1
        rw [this] at hp
        exact absurd hp.2 (by simp)
    simp only [ticketRow]
    rw [rawTicketRate_self data i hi, hz.1, hz.2]
    simp
  | true =>
    have hos : otherSurvived data (data.get ⟨i, hi⟩).ticket
        (data.get ⟨i, hi⟩).passengerId = [] := by
      unfold otherSurvived
      rw [List.filterMap_eq_nil_iff]
      intro a ha
      rw [List.mem_filter] at ha
      obtain ⟨ham, hap⟩ := ha
      obtain ⟨⟨j, hj⟩, rfl⟩ := List.mem_iff_get.mp ham
      by_cases hji : j = i
      · subst hji
        simp only [Bool.and_eq_true, bne_iff_ne, ne_eq] at hap
        exact absurd trivial hap.2
      · simp only [Bool.and_eq_true, beq_iff_eq] at hap
        exact h j hj hji hap.1
    simp only [ticketRow]
    rw [hos, simpleRate_nil]
    simp

/-- A two-row table whose row 0 is the only row with ticket "A", used as
concrete input for the fallback witness. -/
def fallbackDemo : List Passenger :=
  [⟨1, "A", 1, some true⟩, ⟨2, "B", 1, some false⟩]

/-- Witness for C4: on a concrete table where row 0's ticket is unique,
non-simplified mode fills row 0's rate with the `Pclass`-mean of `Survived`. -/
theorem fill_ticket_rates_fallback_witness :
    rateAt false false fallbackDemo 0
      = some (pclassSurvivedMean fallbackDemo
          (fallbackDemo.get ⟨0, by decide⟩).pclass) := by
  have h := fill_ticket_rates_fallback false false fallbackDemo 0 (by decide)
    (by decide)
  simpa using h

/-! ### C7: exact fractions on the hand-built table -/

/-- The ten-row fixture of `tests/test_titanic.py` (`TestTicketCounter.setUp`). -/
def ticketFixture : List Passenger :=
  [⟨1, "A", 1, some true⟩, ⟨2, "B", 1, some true⟩, ⟨3, "C", 2, some false⟩,
   ⟨4, "C", 2, some false⟩, ⟨5, "B", 1, none⟩, ⟨6, "C", 2, some true⟩,
   ⟨7, "D", 3, some false⟩, ⟨8, "B", 1, some false⟩, ⟨9, "A", 1, none⟩,
   ⟨10, "E", 3, some true⟩]

/-- A three-row ticket group in which, excluding the third row, there are
exactly two known survivors. -/
def ticketGroup3 : List Passenger :=
  [⟨1, "X", 1, some true⟩, ⟨2, "X", 1, some true⟩, ⟨3, "X", 1, some false⟩]

/-- A four-row ticket group in which, excluding the fourth row, there are two
known survivors and one known death. -/
def ticketGroup4 : List Passenger :=
  [⟨1, "X", 1, some true⟩, ⟨2, "X", 1, some true⟩, ⟨3, "X", 1, some false⟩,
   ⟨4, "X", 1, none⟩]

/-- **C7 (counterexample).** In a 3-row ticket group where the third row has
2 survivors among the *other* rows, non-simplified `fill_ticket_rates` gives
the third row the rate 2/2 = 1, not 2/3 as the claim states: the denominator
is the number of other rows with *known* outcome, so 2/3 needs three known
others, impossible in a 3-row group. -/
theorem ticket_rate_three_row_group_not_two_thirds :
    ticketCountOf ticketGroup3 "X" = 3 ∧
    otherSurvived ticketGroup3 "X" 3 = [true, true] ∧
    rateAt false false ticketGroup3 2 = some (some 1) ∧
    some (some (1 : ℚ)) ≠ some (some ((2 : ℚ)/3)) := by
  refine ⟨by decide, by decide, ?_, by norm_num⟩
  rw [rateAt_eq _ _ _ 2 (by decide)]
  norm_num [ticketRow, ticketGroup3, rawTicketRate, survOf, diedOf,
    ticketCountOf, pclassSurvivedMean, List.countP_cons, List.countP_nil,
    List.filter_cons, List.filter_nil, List.filterMap_cons, List.filterMap_nil]

/-- **C7 (amended).** When group counts match the hand-built expected table
of the unit tests, the filled rates equal the expected fractions exactly; in
particular a row of a ticket group whose *other* members consist of exactly
two known survivors and one known death (a four-row group) is assigned
`TicketRate` 2/3 by non-simplified `fill_ticket_rates`. -/
theorem ticket_rates_match_expected_table :
    (fillTicketRates false false ticketFixture).map (fun r => r.ticketRate)
      = [some (2/3), some 0, some (1/2), some (1/2), some (1/2),
         some 0, some (1/2), some 1, some 1, some (1/2)] ∧
    rateAt false false ticketGroup4 3 = some (some (2/3)) := by
  constructor
  · norm_num +decide [fillTicketRates, ticketFixture, ticketRow, rawTicketRate,
      survOf, diedOf, ticketCountOf, pclassSurvivedMean, List.countP_cons,
      List.countP_nil, List.filter_cons, List.filter_nil, List.filterMap_cons,
      List.filterMap_nil, List.count_cons, List.count_nil]
  · rw [rateAt_eq _ _ _ 3 (by decide)]
    norm_num [ticketRow, ticketGroup4, rawTicketRate, survOf, diedOf,
      ticketCountOf, pclassSurvivedMean, List.countP_cons, List.countP_nil,
      List.filter_cons, List.filter_nil, List.filterMap_cons, List.filterMap_nil]

/-! ### C8: `fill_ticket_rates` only adds the two new columns -/

/-- **C8.** `TicketCounter.fill_ticket_rates` mutates the caller's frame in
place, adding exactly the `TicketCount` and `TicketRate` columns (the only
fields `PassengerOut` has beyond `Passenger`); projecting the output back to
the original columns returns the input table unchanged — same rows, same
values, same order (the row index) and same length. -/
theorem fill_ticket_rates_preserves_columns
    (simplified fill_if_not_any_survived : Bool) (data : List Passenger) :
    (fillTicketRates simplified fill_if_not_any_survived data).map
        PassengerOut.toPassenger = data ∧
    (fillTicketRates simplified fill_if_not_any_survived data).length
        = data.length := by
  constructor
  · unfold fillTicketRates
    rw [List.map_map]
    exact List.map_id'' (fun r => rfl) data
  · unfold fillTicketRates
    exact List.length_map data _

/-! ## `squash_rare` (`kaggletools/select_features.py`)

A data frame is a list of named columns of categorical `String` values over a
shared positional row index.  `rares = data[colname].value_counts() < threshold`
marks each value by its number of occurrences in the *original* column, and
the `apply` replaces a value by `rare_val` exactly when its original count is
below the threshold. -/

/-- The new value of one column under `squash_rare`. -/
def squashCol (col : List String) (threshold : Nat) (rare_val : String) :
    List String :=
  col.map (fun x => if col.count x < threshold then rare_val else x)

/-- `squash_rare(data, colname, threshold, rare_val)`: rewrite the column
named `colname`, leave every other column alone. -/
def squash_rare (data : List (String × List String)) (colname : String)
    (threshold : Nat) (rare_val : String) : List (String × List String) :=
  data.map (fun c =>
    if c.1 = colname then (c.1, squashCol c.2 threshold rare_val) else c)

/-- **C5.** After `squash_rare(data, colname, threshold, rare_val)`:
the frame keeps its shape; every column other than `colname` is unchanged;
and in column `colname` each value that occurred strictly fewer than
`threshold` times in the original column is replaced by `rare_val` while
every value that occurred at least `threshold` times is kept. -/
theorem squash_rare_spec (data : List (String × List String)) (colname : String)
    (threshold : Nat) (rare_val : String) :
    (squash_rare data colname threshold rare_val).length = data.length ∧
    (∀ k, ∀ hk : k < data.length, (data.get ⟨k, hk⟩).1 ≠ colname →
      (squash_rare data colname threshold rare_val)[k]?
        = some (data.get ⟨k, hk⟩)) ∧
    (∀ k, ∀ hk : k < data.length, (data.get ⟨k, hk⟩).1 = colname →
      ∀ j, ∀ hj : j < (data.get ⟨k, hk⟩).2.length,
        ((squash_rare data colname threshold rare_val)[k]?.map
            (fun c => c.2[j]?))
          = some (some
              (if (data.get ⟨k, hk⟩).2.count ((data.get ⟨k, hk⟩).2.get ⟨j, hj⟩)
                  < threshold
               then rare_val else (data.get ⟨k, hk⟩).2.get ⟨j, hj⟩))) := by
  refine ⟨List.length_map data _, ?_, ?_⟩
  · intro k hk hne
    simp only [List.get_eq_getElem] at hne
    simp [squash_rare, List.getElem?_eq_getElem hk, hne]
  · intro k hk hcol j hj
    simp only [List.get_eq_getElem] at hcol hj ⊢
    simp [squash_rare, squashCol, List.getElem?_eq_getElem hk, hcol,
      List.getElem?_map, List.getElem?_eq_getElem hj]

/-- Concrete frame for the `squash_rare` witness: a categorical column and an
untouched second column. -/
def squashDemo : List (String × List String) :=
  [("Cat", ["a", "a", "b"]), ("Other", ["x", "y", "z"])]

/-- Witness for C5: with threshold 2, value `"b"` (1 occurrence) of column
`"Cat"` is squashed to `"Rare"` and column `"Other"` is untouched. -/
theorem squash_rare_spec_witness :
    (squash_rare squashDemo "Cat" 2 "Rare")[1]? = some ("Other", ["x", "y", "z"]) ∧
    ((squash_rare squashDemo "Cat" 2 "Rare")[0]?.map (fun c => c.2[2]?))
      = some (some "Rare") := by
  constructor
  · exact (squash_rare_spec squashDemo "Cat" 2 "Rare").2.1 1 (by decide) (by decide)
  · have h := (squash_rare_spec squashDemo "Cat" 2 "Rare").2.2 0 (by decide)
      (by decide) 2 (by decide)
    simpa using h

/-! ## `extract_title` (`kaggletools/titanic.py`)

`data.Name.str.extract("([A-Za-z]+)\\.")` finds, in each name, the first run
of ASCII letters that is immediately followed by a period, and `_mapper`
turns the extracted title into its index in the `titles` list.  Before any of
that, the function validates the caller-supplied title list and raises when
one of the four mandatory titles is missing. -/

def isAsciiLetter (c : Char) : Bool :=
  ('A' ≤ c && c ≤ 'Z') || ('a' ≤ c && c ≤ 'z')

/-- First run of letters immediately followed by `'.'`, as the regex
`([A-Za-z]+)\.` matches it: at each letter run, if the character after the
run is a period the run is the capture; otherwise scanning resumes after the
run. -/
def findTitleChars : List Char → Option (List Char)
  | [] => none
  | c :: rest =>
    if isAsciiLetter c then
      match List.dropWhile isAsciiLetter rest with
      | '.' :: _ => some (c :: List.takeWhile isAsciiLetter rest)
      | _ => findTitleChars (List.dropWhile isAsciiLetter rest)
    else findTitleChars rest
termination_by l => l.length
decreasing_by
  · have h := (List.dropWhile_sublist isAsciiLetter (l := rest)).length_le
    simp only [List.length_cons]
    omega
  · simp

def findTitle (s : String) : Option String :=
  (findTitleChars s.data).map (fun cs => String.mk cs)

/-- Python's `list.index`: position of the first occurrence, `ValueError`
when absent. -/
def pyIndex : List String → String → Except String Nat
  | [], _ => Except.error "ValueError"
  | a :: rest, x =>
    if a = x then Except.ok 0 else (pyIndex rest x).map (fun n => n + 1)

/-- `_mapper` of `extract_title`. -/
def mapTitle (titles : List String) (x : String) : Except String Nat :=
  if x = "Mr" then pyIndex titles "Mr"
  else if x = "Mrs" ∨ x = "Mme" then pyIndex titles "Mrs"
  else if x = "Miss" ∨ x = "Ms" ∨ x = "Mlle" then pyIndex titles "Miss"
  else if x = "Master" then pyIndex titles "Master"
  else if x = "Dr" ∧ "Dr" ∈ titles then pyIndex titles "Dr"
  else if (x = "Capt" ∨ x = "Major" ∨ x = "Col") ∧ "Military" ∈ titles then
    pyIndex titles "Military"
  else if (x = "Sir" ∨ x = "Count" ∨ x = "Countess") ∧ "Royal" ∈ titles then
    pyIndex titles "Royal"
  else pyIndex titles "Rare"

def defaultTitles : List String := ["Mr", "Mrs", "Miss", "Master", "Rare"]

/-- `extract_title(data, titles)`: `names` is the `Name` column; the result
is the `Series` of title indexes (`none` where the regex found no title, the
pandas `map` skipping `NaN`).  The mandatory-titles check runs first and
raises without touching the `Name` column; the function only ever reads
`data` and returns a fresh `Series`, never mutating the frame. -/
def extract_title (names : List String) (titles? : Option (List String)) :
    Except String (List (Option Nat)) :=
  let titles := titles?.getD defaultTitles
  if "Mr" ∉ titles ∨ "Mrs" ∉ titles ∨ "Miss" ∉ titles ∨ "Master" ∉ titles then
    Except.error "Must be able to return Mr, Mrs, Miss and Master titles."
  else
    names.mapM (fun n =>
      match findTitle n with
      | none => Except.ok none
      | some t => (mapTitle titles t).map some)

/-- **C6.** For every caller-specified title list missing at least one of the
mandatory categories `Mr`, `Mrs`, `Miss`, `Master`, `extract_title` raises
immediately — the same exception for *every* `Name` column, so the error is
decided before any name is read, the frame is not modified (the function is
read-only by construction) and there is no recovery path. -/
theorem extract_title_missing_mandatory (names : List String)
    (titles : List String)
    (h : "Mr" ∉ titles ∨ "Mrs" ∉ titles ∨ "Miss" ∉ titles ∨ "Master" ∉ titles) :
    extract_title names (some titles)
      = Except.error "Must be able to return Mr, Mrs, Miss and Master titles." := by
  unfold extract_title
  simp only [Option.getD_some]
  rw [if_pos h]

/-- Witness for C6: a title list with none of the mandatory categories makes
`extract_title` raise, whatever the names are. -/
theorem extract_title_missing_mandatory_witness :
    extract_title ["Smith, Mr. John"] (some ["Rare"])
      = Except.error "Must be able to return Mr, Mrs, Miss and Master titles." :=
  extract_title_missing_mandatory ["Smith, Mr. John"] ["Rare"]
    (Or.inl (by decide))

/-! ## `SumDiffTransformer.transform` (`kaggletools/select_features.py`)

The matrix `X` is a list of rows of rationals; `ncols` is `X.shape[1]`.
The loop body references the name `X_old`, which is bound nowhere in the
module, so evaluating `X_old.shape[1]` raises a `NameError`; the lookup is
modelled by an `Except` value that always fails.  The inner-loop body (never
reached when `ncols > 0`, because the inner `range` bound itself evaluates
`X_old.shape[1]` first) is transcribed anyway, behind the failing lookup. -/

/-- Evaluating `X_old.shape[1]`: the name `X_old` is unbound in
`SumDiffTransformer.transform`, so this raises. -/
def xOldShape1 : Except String Nat :=
  Except.error "NameError: name 'X_old' is not defined"

/-- Column `i` of `X` as a list of values. -/
def getCol (X : List (List ℚ)) (i : Nat) : List ℚ :=
  X.map (fun row => row.getD i 0)

/-- `X_new[:, c] = v`. -/
def setCol (M : List (List ℚ)) (c : Nat) (v : List ℚ) : List (List ℚ) :=
  (M.zip v).map (fun rv => rv.1.set c rv.2)

/-- `SumDiffTransformer.transform(X)`. -/
def sumDiffTransform (X : List (List ℚ)) (ncols : Nat) :
    Except String (List (List ℚ)) :=
  (List.range ncols).foldlM
    (fun M i => do
      let w ← xOldShape1
      (List.range w).foldlM
        (fun M2 j => do
          let w2 ← xOldShape1
          let col : List ℚ :=
            if j < i then (getCol X i).zipWith (fun a b => a + b) (getCol X j)
            else if i < j then (getCol X i).zipWith (fun a b => a - b) (getCol X j)
            else getCol X i
          pure (setCol M2 (i * w2 + j) col))
        M)
    (X.map (fun _ => List.replicate (ncols * ncols) (0 : ℚ)))

/-- **C9.** For every input matrix with at least one column,
`SumDiffTransformer.transform` raises the `NameError` for the undefined name
`X_old` (the first inner-loop bound evaluates it); the pairwise
sum/difference expansion is never successfully returned for such inputs. -/
theorem sumDiffTransform_raises (X : List (List ℚ)) (ncols : Nat)
    (h : 0 < ncols) :
    sumDiffTransform X ncols
      = Except.error "NameError: name 'X_old' is not defined" := by
  obtain ⟨n, rfl⟩ : ∃ n, ncols = n + 1 := ⟨ncols - 1, by omega⟩
  unfold sumDiffTransform
  rw [List.range_succ_eq_map, List.foldlM_cons]
  rfl

/-- Witness for C9: a concrete 1×1 matrix makes `transform` raise. -/
theorem sumDiffTransform_raises_witness :
    sumDiffTransform [[(1 : ℚ)]] 1
      = Except.error "NameError: name 'X_old' is not defined" :=
  sumDiffTransform_raises [[(1 : ℚ)]] 1 (by decide)

/-! ## Missing `pandas` import in `kaggletools/titanic.py`

The module's only imports are `import numpy as np` and `import warnings`
(lines 17–18); the name `pd` is referenced by `CabinCounter.__init__` and
`FamilyPredictor.__init__` (both on the `filler is None` paths, via
`pd.Series`) and by `FamilyPredictor._fill_family_ids` (via `pd.DataFrame`,
its first statement), so each of those references raises a `NameError`. -/

/-- The modules `kaggletools/titanic.py` imports. -/
def titanicModuleImports : List String := ["numpy", "warnings"]

/-- Looking up the name `pd` inside `kaggletools/titanic.py`: it succeeds
only if `pandas` were imported, which it is not. -/
def lookupPd : Except String Unit :=
  if "pandas" ∈ titanicModuleImports then Except.ok ()
  else Except.error "NameError: name 'pd' is not defined"

/-- A row of the Titanic table as `CabinCounter` reads it. -/
structure CabinRow where
  passengerId : Int
  cabin : Option String
  pclass : Int
  survived : Option Bool
deriving DecidableEq, Repr

/-- The per-`Pclass` mean of `Survived` used to build the default
non-simplified filler of `CabinCounter.__init__`. -/
def cabinClassMean (data : List CabinRow) (c : Int) : Option ℚ :=
  let ks := (data.filter (fun r => r.pclass == c)).filterMap (fun r => r.survived)
  if ks.isEmpty then none
  else some ((ks.count true : ℚ) / (ks.length : ℚ))

/-- The default filler of `CabinCounter.__init__`: `pd.Series(0.5, ...)` in
simplified mode, a `pd.Series` of per-class survival means otherwise — both
start by evaluating the unbound name `pd`. -/
def cabinDefaultFiller (data : List CabinRow) (simplified : Bool) :
    Except String (List (Option ℚ)) := do
  let _ ← lookupPd
  if simplified then pure (data.map (fun _ => some (1/2)))
  else pure (data.map (fun r => cabinClassMean data r.pclass))

/-- The state a constructed `CabinCounter` holds. -/
structure CabinCounterT where
  data : List CabinRow
  filler : List (Option ℚ)
  simplified : Bool

/-- `CabinCounter.__init__(data, filler, simplified)`. -/
def CabinCounter.init (data : List CabinRow) (filler : Option (List (Option ℚ)))
    (simplified : Bool) : Except String CabinCounterT :=
  match filler with
  | none => do
    let f ← cabinDefaultFiller data simplified
    pure ⟨data, f, simplified⟩
  | some f => pure ⟨data, f, simplified⟩

/-- A row of the Titanic table as `FamilyPredictor.__init__` reads it. -/
structure FamilyRow where
  name : String
  passengerId : Int
  pclass : Int
  parch : Int
  sibsp : Int
  survived : Option Bool
deriving DecidableEq, Repr

/-- A row extended with the `Lastname` and `SecondaryLastname` columns the
constructor adds. -/
structure FamilyRowL extends FamilyRow where
  lastname : String
  secondaryLastname : Option String
deriving DecidableEq, Repr

/-- `str.split(x, ",")[0]`. -/
def computeLastname (n : String) : String :=
  (n.splitOn ",").headD n

def isSecondaryNameChar (c : Char) : Bool :=
  isAsciiLetter c || c == '\'' || c == '-'

/-- `Name.str.extract("([A-Za-z'-]+)\\)$")`: the maximal nonempty run of
letters/apostrophes/hyphens immediately before a final `)`. -/
def extractParenSuffix (s : String) : Option String :=
  match s.data.reverse with
  | ')' :: rest =>
    let run := rest.takeWhile isSecondaryNameChar
    if run.isEmpty then none else some (String.mk run.reverse)
  | _ => none

/-- `Lastname.str.extract("^[A-Za-z]+-([A-Za-z]+)$")`: the part after the
hyphen of a letters-hyphen-letters last name. -/
def extractHyphenSecond (s : String) : Option String :=
  let cs := s.data
  let first := cs.takeWhile isAsciiLetter
  match cs.drop first.length with
  | '-' :: rest2 =>
    if first.isEmpty then none
    else if rest2.isEmpty then none
    else if rest2.all isAsciiLetter then some (String.mk rest2) else none
  | _ => none

/-- Lines 411–415 of `FamilyPredictor.__init__`: add the `Lastname` column
and the `SecondaryLastname` column (paren-suffix extract, `fillna`-ed with
the hyphenated-lastname extract).  Pure pandas `Series` methods — no `pd`. -/
def addLastnames (data : List FamilyRow) : List FamilyRowL :=
  data.map (fun r =>
    let ln := computeLastname r.name
    { toFamilyRow := r, lastname := ln,
      secondaryLastname :=
        (extractParenSuffix r.name).orElse (fun _ => extractHyphenSecond ln) })

/-- The per-`Pclass` survival mean of the default non-simplified filler of
`FamilyPredictor.__init__`. -/
def familyClassMean (data : List FamilyRowL) (c : Int) : Option ℚ :=
  let ks := (data.filter (fun r => r.pclass == c)).filterMap (fun r => r.survived)
  if ks.isEmpty then none
  else some ((ks.count true : ℚ) / (ks.length : ℚ))

/-- The default filler of `FamilyPredictor.__init__`: both branches build a
`pd.Series`, evaluating the unbound name `pd` first. -/
def familyDefaultFiller (data : List FamilyRowL) (simplified : Bool) :
    Except String (List (Option ℚ)) := do
  let _ ← lookupPd
  if simplified then pure (data.map (fun _ => some (1/2)))
  else pure (data.map (fun r => familyClassMean data r.pclass))

/-- The state a constructed `FamilyPredictor` holds. -/
structure FamilyPredictorT where
  data : List FamilyRowL
  filler : List (Option ℚ)
  simplified : Bool
  use_fare : Bool
  fill_if_not_any_survived : Bool

/-- `FamilyPredictor.__init__(data, filler, simplified, use_fare,
fill_if_not_any_survived)`. -/
def FamilyPredictor.init (data : List FamilyRow)
    (filler : Option (List (Option ℚ)))
    (simplified use_fare fill_if_not_any_survived : Bool) :
    Except String FamilyPredictorT :=
  let d := addLastnames data
  match filler with
  | none => do
    let f ← familyDefaultFiller d simplified
    pure ⟨d, f, simplified, use_fare, fill_if_not_any_survived⟩
  | some f => pure ⟨d, f, simplified, use_fare, fill_if_not_any_survived⟩

/-- `FamilyPredictor.fill_family_rates`: its first step,
`_fill_family_ids`, begins with `self.families = pd.DataFrame(...)`, which
evaluates the unbound name `pd`.  Whatever the remaining body would compute
(`rest`, never reached) the call raises. -/
def FamilyPredictor.fill_family_rates {α : Type} (p : FamilyPredictorT)
    (rest : FamilyPredictorT → Except String α) : Except String α := do
  let _ ← lookupPd
  rest p

/-- **C10.** `kaggletools/titanic.py` imports only `numpy` and `warnings`,
never `pandas`; hence constructing a `CabinCounter` or a `FamilyPredictor`
with the default `filler=None` raises `NameError('pd' is not defined)` in
either mode, and every call to `FamilyPredictor.fill_family_rates` raises
that `NameError` even when a filler was supplied, whatever the rest of its
body would do. -/
theorem titanic_missing_pandas :
    titanicModuleImports = ["numpy", "warnings"] ∧
    "pandas" ∉ titanicModuleImports ∧
    (∀ (data : List CabinRow) (simplified : Bool),
      CabinCounter.init data none simplified
        = Except.error "NameError: name 'pd' is not defined") ∧
    (∀ (data : List FamilyRow) (s u f : Bool),
      FamilyPredictor.init data none s u f
        = Except.error "NameError: name 'pd' is not defined") ∧
    (∀ (α : Type) (p : FamilyPredictorT)
      (rest : FamilyPredictorT → Except String α),
      FamilyPredictor.fill_family_rates p rest
        = Except.error "NameError: name 'pd' is not defined") := by
  refine ⟨rfl, by decide, ?_, ?_, ?_⟩
  · intro data simplified
    rfl
  · intro data s u f
    rfl
  · intro α p rest
    rfl

/-! ## Greedy feature selection (`kaggletools/select_features.py`)

The cross-validation call is a boundary to a third-party library: it is
modelled as a function `cv : ShuffleSplitCfg → List String → List ℚ` giving
the per-split test scores of the model fitted on the named feature columns
(model, table and target are fixed throughout one selection run, so they are
folded into `cv`).  Both selectors always call it with the one configuration
`ShuffleSplit(n_splits=10, random_state=0, train_size=0.75, test_size=0.25)`
and compare means of the returned scores.  Python's `set` iteration order is
unspecified; the embedding iterates candidates in list order, and the proved
properties do not depend on the order beyond tie-breaking. -/

/-- The arguments of `sklearn.model_selection.ShuffleSplit` that the
selectors pass. -/
structure ShuffleSplitCfg where
  n_splits : Nat
  random_state : Nat
  train_size : ℚ
  test_size : ℚ
deriving DecidableEq, Repr

/-- The fixed splitter both selectors construct:
`ShuffleSplit(n_splits=10, random_state=0, train_size=0.75, test_size=0.25)`. -/
def selectionSplit : ShuffleSplitCfg := ⟨10, 0, 3/4, 1/4⟩

/-- `cv['test_score'].mean()`. -/
def meanList (l : List ℚ) : ℚ := l.sum / l.length

/-- One iteration of the inner candidate loop shared by both selectors:
score `try_ f` and keep it as `(best_features, best_score)` whenever it
strictly beats the running best (`best_score is None` counts as beaten). -/
def selStep (score : List String → ℚ) (try_ : String → List String)
    (acc : Option (List String) × Option ℚ) (f : String) :
    Option (List String) × Option ℚ :=
  let tf := try_ f
  let s := score tf
  match acc.2 with
  | none => (some tf, some s)
  | some b => if b < s then (some tf, some s) else acc

/-- The inner loop of `select_features_ascending`: each candidate `f` is
tried as `selected_features + [f]`, starting from `best_features = None`. -/
def ascRound (score : List String → ℚ) (selected : List String)
    (cands : List String) (best : Option ℚ) :
    Option (List String) × Option ℚ :=
  cands.foldl (selStep score (fun f => selected ++ [f])) (none, best)

/-- The outer loop of `select_features_ascending`
(`for n in range(0, len(all_features))`): run a round over the unselected
features; adopt the round's best feature set and score if a candidate won,
otherwise `break` and return the current selection. -/
def ascLoop (score : List String → ℚ) (allF : List String) :
    Nat → List String → Option ℚ → List String
  | 0, sel, _ => sel
  | n + 1, sel, best =>
    match ascRound score sel (allF.filter (fun f => !sel.contains f)) best with
    | (some bf, bs) => ascLoop score allF n bf bs
    | (none, _) => sel

/-- `select_features_ascending(data, y, model, starting_features)`: `allF`
is `list(data.columns)`; the loop starts from the starting features and a
`None` best score; every evaluation is
`meanList (cv selectionSplit try_features)`. -/
def select_features_ascending (cv : ShuffleSplitCfg → List String → List ℚ)
    (allF : List String) (starting_features : List String) : List String :=
  ascLoop (fun fs => meanList (cv selectionSplit fs)) allF allF.length
    starting_features none

/-- The inner loop of `select_features_descending`: each selected feature
`f` is tried removed, `list(set(selected) - set([f]))`. -/
def descRound (score : List String → ℚ) (sel : List String) (best : Option ℚ) :
    Option (List String) × Option ℚ :=
  sel.foldl (selStep score (fun f => sel.filter (fun x => !(x == f)))) (none, best)

/-- The outer loop of `select_features_descending`.  Python's
`if best_features:` is a truthiness test: the loop continues only when the
round adopted a *non-empty* feature list, and breaks both when no removal
won the round (`best_features` still `None`) and when the adopted removal
set is the empty list (which happens when the selection was a single feature
and its removal won) — an empty list is falsy. -/
def descLoop (score : List String → ℚ) :
    Nat → List String → Option ℚ → List String
  | 0, sel, _ => sel
  | n + 1, sel, best =>
    match descRound score sel best with
    | (some (f :: bf), bs) => descLoop score n (f :: bf) bs
    | (some [], _) => sel
    | (none, _) => sel

/-- `select_features_descending(data, y, model)`: starts from the full
column list with the full-table cross-validated mean as the score to beat. -/
def select_features_descending (cv : ShuffleSplitCfg → List String → List ℚ)
    (allF : List String) : List String :=
  descLoop (fun fs => meanList (cv selectionSplit fs)) allF.length allF
    (some (meanList (cv selectionSplit allF)))

/-! ### Characterisation of the candidate fold -/

theorem selFold_stop (score : List String → ℚ) (try_ : String → List String) :
    ∀ (cands : List String) (bf0 : Option (List String)) (b : ℚ),
      (∀ f ∈ cands, score (try_ f) ≤ b) →
      cands.foldl (selStep score try_) (bf0, some b) = (bf0, some b)
  | [], _, _, _ => rfl
  | c :: rest, bf0, b, h => by
    have hc : ¬ b < score (try_ c) := not_lt.mpr (h c (by simp))
    simp only [List.foldl_cons, selStep, if_neg hc]
    exact selFold_stop score try_ rest bf0 b (fun f hf => h f (by simp [hf]))

theorem selFold_coupled (score : List String → ℚ) (try_ : String → List String) :
    ∀ (cands : List String) (c : String),
      ∃ g, (g = c ∨ g ∈ cands) ∧
        cands.foldl (selStep score try_) (some (try_ c), some (score (try_ c)))
          = (some (try_ g), some (score (try_ g))) ∧
        score (try_ c) ≤ score (try_ g) ∧
        ∀ f ∈ cands, score (try_ f) ≤ score (try_ g)
  | [], c => ⟨c, Or.inl rfl, rfl, le_refl _, by simp⟩
  | c' :: rest, c => by
    by_cases hlt : score (try_ c) < score (try_ c')
    · obtain ⟨g, hg, heq, hle, hbound⟩ := selFold_coupled score try_ rest c'
      refine ⟨g, ?_, ?_, ?_, ?_⟩
      · rcases hg with rfl | hg
        · simp
        · simp [hg]
      · simpa only [List.foldl_cons, selStep, if_pos hlt] using heq
      · exact le_of_lt (lt_of_lt_of_le hlt hle)
      · intro f hf
        rcases List.mem_cons.mp hf with rfl | hf
        · exact hle
        · exact hbound f hf
    · obtain ⟨g, hg, heq, hle, hbound⟩ := selFold_coupled score try_ rest c
      refine ⟨g, ?_, ?_, hle, ?_⟩
      · rcases hg with rfl | hg
        · simp
        · simp [hg]
      · simpa only [List.foldl_cons, selStep, if_neg hlt] using heq
      · intro f hf
        rcases List.mem_cons.mp hf with rfl | hf
        · exact le_trans (not_lt.mp hlt) hle
        · exact hbound f hf

theorem selFold_improve (score : List String → ℚ) (try_ : String → List String) :
    ∀ (cands : List String) (bf0 : Option (List String)) (b : ℚ),
      (∃ f ∈ cands, b < score (try_ f)) →
      ∃ g ∈ cands,
        cands.foldl (selStep score try_) (bf0, some b)
          = (some (try_ g), some (score (try_ g))) ∧
        b < score (try_ g) ∧ ∀ f ∈ cands, score (try_ f) ≤ score (try_ g)
  | [], _, _, h => absurd h (by simp)
  | c :: rest, bf0, b, h => by
    by_cases hb : b < score (try_ c)
    · obtain ⟨g, hg, heq, hle, hbound⟩ := selFold_coupled score try_ rest c
      refine ⟨g, ?_, ?_, lt_of_lt_of_le hb hle, ?_⟩
      · rcases hg with rfl | hg
        · simp
        · simp [hg]
      · simpa only [List.foldl_cons, selStep, if_pos hb] using heq
      · intro f hf
        rcases List.mem_cons.mp hf with rfl | hf
        · exact hle
        · exact hbound f hf
    · have hrest : ∃ f ∈ rest, b < score (try_ f) := by
        obtain ⟨f, hf, hfb⟩ := h
        rcases List.mem_cons.mp hf with rfl | hf
        · exact absurd hfb hb
        · exact ⟨f, hf, hfb⟩
      obtain ⟨g, hg, heq, hgb, hbound⟩ := selFold_improve score try_ rest bf0 b hrest
      refine ⟨g, by simp [hg], ?_, hgb, ?_⟩
      · simpa only [List.foldl_cons, selStep, if_neg hb] using heq
      · intro f hf
        rcases List.mem_cons.mp hf with rfl | hf
        · exact le_trans (not_lt.mp hb) (le_of_lt hgb)
        · exact hbound f hf

theorem selFold_none_start (score : List String → ℚ) (try_ : String → List String) :
    ∀ (cands : List String), cands ≠ [] →
      ∃ g ∈ cands,
        cands.foldl (selStep score try_) (none, none)
          = (some (try_ g), some (score (try_ g))) ∧
        ∀ f ∈ cands, score (try_ f) ≤ score (try_ g)
  | [], h => absurd rfl h
  | c :: rest, _ => by
    obtain ⟨g, hg, heq, hle, hbound⟩ := selFold_coupled score try_ rest c
    refine ⟨g, ?_, ?_, ?_⟩
    · rcases hg with rfl | hg
      · simp
      · simp [hg]
    · simpa only [List.foldl_cons, selStep] using heq
    · intro f hf
      rcases List.mem_cons.mp hf with rfl | hf
      · exact hle
      · exact hbound f hf

/-! ### C2: the greedy forward selector -/

/-- **C2.** `select_features_ascending` (i) evaluates candidates only through
the fixed splitter `ShuffleSplit(n_splits=10, random_state=0,
train_size=0.75, test_size=0.25)` — its result depends on the
cross-validator only at that configuration; (ii) when no unselected feature's
addition beats the running best mean R², it stops and returns the selected
features; (iii) when some addition beats the running best, the round adds a
single unselected feature whose addition yields the highest mean score among
all candidates and continues with that score as the new best; (iv) the first
round (no best score yet) likewise adds a highest-scoring candidate. -/
theorem select_features_ascending_spec :
    (selectionSplit.n_splits = 10 ∧ selectionSplit.random_state = 0 ∧
      selectionSplit.train_size = 3/4 ∧ selectionSplit.test_size = 1/4) ∧
    (∀ (cv cv' : ShuffleSplitCfg → List String → List ℚ)
        (allF starting : List String),
      (∀ fs, cv selectionSplit fs = cv' selectionSplit fs) →
      select_features_ascending cv allF starting
        = select_features_ascending cv' allF starting) ∧
    (∀ (score : List String → ℚ) (allF sel : List String) (n : Nat) (b : ℚ),
      (∀ f ∈ allF.filter (fun f => !sel.contains f), score (sel ++ [f]) ≤ b) →
      ascLoop score allF (n + 1) sel (some b) = sel) ∧
    (∀ (score : List String → ℚ) (allF sel : List String) (n : Nat) (b : ℚ),
      (∃ f ∈ allF.filter (fun f => !sel.contains f), b < score (sel ++ [f])) →
      ∃ g ∈ allF.filter (fun f => !sel.contains f),
        b < score (sel ++ [g]) ∧
        (∀ f ∈ allF.filter (fun f => !sel.contains f),
          score (sel ++ [f]) ≤ score (sel ++ [g])) ∧
        ascLoop score allF (n + 1) sel (some b)
          = ascLoop score allF n (sel ++ [g]) (some (score (sel ++ [g])))) ∧
    (∀ (score : List String → ℚ) (allF sel : List String) (n : Nat),
      allF.filter (fun f => !sel.contains f) ≠ [] →
      ∃ g ∈ allF.filter (fun f => !sel.contains f),
        (∀ f ∈ allF.filter (fun f => !sel.contains f),
          score (sel ++ [f]) ≤ score (sel ++ [g])) ∧
        ascLoop score allF (n + 1) sel none
          = ascLoop score allF n (sel ++ [g]) (some (score (sel ++ [g])))) := by
  refine ⟨⟨rfl, rfl, rfl, rfl⟩, ?_, ?_, ?_, ?_⟩
  · intro cv cv' allF starting h
    unfold select_features_ascending
    have : (fun fs => meanList (cv selectionSplit fs))
        = (fun fs => meanList (cv' selectionSplit fs)) := by
      funext fs
      rw [h fs]
    rw [this]
  · intro score allF sel n b h
    have hstop := selFold_stop score (fun f => sel ++ [f])
      (allF.filter (fun f => !sel.contains f)) none b h
    simp only [ascLoop, ascRound, hstop]
  · intro score allF sel n b h
    obtain ⟨g, hg, heq, hgb, hbound⟩ := selFold_improve score
      (fun f => sel ++ [f]) (allF.filter (fun f => !sel.contains f)) none b h
    refine ⟨g, hg, hgb, hbound, ?_⟩
    simp only [ascLoop, ascRound, heq]
  · intro score allF sel n h
    obtain ⟨g, hg, heq, hbound⟩ := selFold_none_start score
      (fun f => sel ++ [f]) (allF.filter (fun f => !sel.contains f)) h
    refine ⟨g, hg, hbound, ?_⟩
    simp only [ascLoop, ascRound, heq]

/-- Witness for C2 (stopping clause): with one candidate scoring 1 against a
running best of 5, the forward loop returns the selection unchanged. -/
theorem select_features_ascending_spec_witness :
    ascLoop (fun fs => (fs.length : ℚ)) ["a"] 1 [] (some 5) = [] := by
  refine select_features_ascending_spec.2.2.1 (fun fs => (fs.length : ℚ))
    ["a"] [] 0 5 ?_
  intro f hf
  simp only [List.filter, List.contains_nil] at hf
  norm_num

/-! ### C3: the greedy backward eliminator -/

/-- **C3.** `select_features_descending` starts from the full feature list
with the full-table cross-validated mean R² as the score to beat, and (i) its
result depends on the cross-validator only at the fixed
`ShuffleSplit(10, 0, 0.75, 0.25)` configuration; (ii) when no single
feature's removal beats the current best score, it stops and returns the
remaining features; (iii) when some removal beats it, the round adopts the
removal of a single feature whose removal yields the highest mean score
among all removal candidates (the removal that most improves — equivalently
least harms — the score): the loop continues with the shrunk list and that
score as the new best when the shrunk list is non-empty, and — `if
best_features:` being a truthiness test — breaks and returns the current
selection when the adopted removal set is empty; (iv) in particular, once
the selection is a single feature the loop always returns it. -/
theorem select_features_descending_spec :
    (∀ (cv : ShuffleSplitCfg → List String → List ℚ) (allF : List String),
      select_features_descending cv allF
        = descLoop (fun fs => meanList (cv selectionSplit fs)) allF.length allF
            (some (meanList (cv selectionSplit allF)))) ∧
    (∀ (cv cv' : ShuffleSplitCfg → List String → List ℚ) (allF : List String),
      (∀ fs, cv selectionSplit fs = cv' selectionSplit fs) →
      select_features_descending cv allF
        = select_features_descending cv' allF) ∧
    (∀ (score : List String → ℚ) (sel : List String) (n : Nat) (b : ℚ),
      (∀ f ∈ sel, score (sel.filter (fun x => !(x == f))) ≤ b) →
      descLoop score (n + 1) sel (some b) = sel) ∧
    (∀ (score : List String → ℚ) (sel : List String) (n : Nat) (b : ℚ),
      (∃ f ∈ sel, b < score (sel.filter (fun x => !(x == f)))) →
      ∃ g ∈ sel,
        b < score (sel.filter (fun x => !(x == g))) ∧
        (∀ f ∈ sel, score (sel.filter (fun x => !(x == f)))
            ≤ score (sel.filter (fun x => !(x == g)))) ∧
        descLoop score (n + 1) sel (some b)
          = (if sel.filter (fun x => !(x == g)) = [] then sel
             else descLoop score n (sel.filter (fun x => !(x == g)))
               (some (score (sel.filter (fun x => !(x == g))))))) ∧
    (∀ (score : List String → ℚ) (x : String) (n : Nat) (best : Option ℚ),
      descLoop score (n + 1) [x] best = [x]) := by
  refine ⟨fun cv allF => rfl, ?_, ?_, ?_, ?_⟩
  · intro cv cv' allF h
    unfold select_features_descending
    have : (fun fs => meanList (cv selectionSplit fs))
        = (fun fs => meanList (cv' selectionSplit fs)) := by
      funext fs
      rw [h fs]
    rw [this, h allF]
  · intro score sel n b h
    have hstop := selFold_stop score (fun f => sel.filter (fun x => !(x == f)))
      sel none b h
    simp only [descLoop, descRound, hstop]
  · intro score sel n b h
    obtain ⟨g, hg, heq, hgb, hbound⟩ := selFold_improve score
      (fun f => sel.filter (fun x => !(x == f))) sel none b h
    refine ⟨g, hg, hgb, hbound, ?_⟩
    cases hrem : sel.filter (fun x => !(x == g)) with
    | nil =>
      rw [if_pos rfl]
      rw [hrem] at heq
      simp only [descLoop, descRound, heq]
    | cons f t =>
      rw [if_neg (by simp)]
      rw [hrem] at heq
      simp only [descLoop, descRound, heq]
  · intro score x n best
    have hrem : ([x].filter (fun y => !(y == x))) = [] := by simp
    cases best with
    | none =>
      simp only [descLoop, descRound, List.foldl_cons, List.foldl_nil, selStep,
        hrem]
    | some b =>
      by_cases hb : b < score ([x].filter (fun y => !(y == x)))
      · simp only [descLoop, descRound, List.foldl_cons, List.foldl_nil,
          selStep, hrem, if_pos (hrem ▸ hb)]
      · simp only [descLoop, descRound, List.foldl_cons, List.foldl_nil,
          selStep, hrem, if_neg (hrem ▸ hb)]

/-- Witness for C3 (stopping clause): removing the only feature scores 0
against a best of 5, so the backward loop keeps the feature. -/
theorem select_features_descending_spec_witness :
    descLoop (fun fs => (fs.length : ℚ)) 1 ["a"] (some 5) = ["a"] := by
  refine select_features_descending_spec.2.2.1 (fun fs => (fs.length : ℚ))
    ["a"] 0 5 ?_
  intro f hf
  simp only [List.mem_singleton] at hf
  subst hf
  norm_num

end Kaggletools
